import Mathlib

/-!
Verification of the OpenSecureConf encrypted configuration store.

This file shallowly embeds the core of the server:
* the encrypted storage engine (`server/config_manager.py`:
  `EncryptionManager`, `ConfigurationManager.create/read/update`),
* the SSE event bus (`server/core/sse_manager.py` and
  `SSESubscription.matches` from `server/core/models.py`),
* the cluster coordinator's reconciliation and salt bootstrap
  (`server/cluster_manager.py`, `server/routes/cluster_routes.py`),
and proves the spec's testable properties against the embedding.

Conventions used throughout:
* Machine timestamps (`datetime`) are abstracted as natural numbers
  (seconds); durations computed from them live in `ℚ` because the source
  manipulates them as floats.
* Python `Optional[str]` fields become `Option String`.  Python truthiness
  of a string (`if s:`) is `none`/`""` falsy, which the embedding mirrors
  wherever the source tests truthiness rather than `is None`.
* A function that raises becomes a function returning `Except`/`Option`;
  a method that mutates `self` becomes a function from state to state, and
  a raise before `session.commit()` leaves the state unchanged.
-/

namespace OpenSecureConf

/-! ## Symbolic model of the external cryptography library

The server encrypts with `cryptography.fernet.Fernet`, keyed by
PBKDF2-HMAC-SHA256(salt, user_key).  Those primitives are an external
dependency, not repository code, so they are modelled at the level of their
documented contract: Fernet is authenticated encryption, hence decryption
with the very key that produced a token recovers the plaintext and
decryption with any other key raises `InvalidToken` (modelled as `none`);
the PBKDF2 derivation is determined by the pair (salt, user key). -/

/-- A Fernet key as produced by `EncryptionManager._create_cipher`:
determined by the 64-byte salt and the caller-supplied user key. -/
structure FernetKey where
  salt : List Nat
  userKey : String
deriving DecidableEq, Repr

/-- A Fernet token.  The authenticated-encryption contract is modelled
symbolically: a token remembers the key that minted it and the plaintext. -/
structure FernetToken where
  key : FernetKey
  plain : String
deriving DecidableEq, Repr

/-- `Fernet.encrypt`. -/
def fernetEncrypt (k : FernetKey) (data : String) : FernetToken :=
  ⟨k, data⟩

/-- `Fernet.decrypt`: succeeds exactly when the decrypting key is the key
that produced the token (HMAC verification), otherwise `InvalidToken`. -/
def fernetDecrypt (k : FernetKey) (tok : FernetToken) : Option String :=
  if tok.key = k then some tok.plain else none

/-- `EncryptionManager` (`server/config_manager.py` lines 61–153): holds the
salt and the user key; the cipher is derived from both. -/
structure EncryptionManager where
  salt : List Nat
  user_key : String
deriving DecidableEq, Repr

/-- `EncryptionManager._create_cipher`: PBKDF2-HMAC-SHA256 over
(salt, user_key), then `Fernet(key)`. -/
def EncryptionManager.cipher (m : EncryptionManager) : FernetKey :=
  ⟨m.salt, m.user_key⟩

/-- `EncryptionManager.encrypt`. -/
def EncryptionManager.encrypt (m : EncryptionManager) (data : String) : FernetToken :=
  fernetEncrypt m.cipher data

/-- `EncryptionManager.decrypt`; `none` models `InvalidToken`. -/
def EncryptionManager.decrypt (m : EncryptionManager) (tok : FernetToken) : Option String :=
  fernetDecrypt m.cipher tok

/-! ## The configuration store (`server/config_manager.py`)

`ConfigurationManager` keeps rows of `ConfigurationModel` in SQLite.  The
table is embedded as a list of rows plus the autoincrement counter; the
`(key, environment)` uniqueness constraint is enforced by `create`'s
explicit existence check.  Values are dicts serialized with `json.dumps`
before encryption and parsed with `json.loads` after decryption; since that
serialization is an injective round-trip supplied by the standard library,
a value is modelled by its serialized form (a `String`). -/

/-- The error taxonomy of the store.  The source raises `ValueError` with
distinct messages; the constructors mirror the distinct failure modes
(`environment is required`, `already exists`, `not found`) plus Fernet's
`InvalidToken`. -/
inductive OSCError
  | validationError
  | duplicateKeyError
  | notFoundError
  | decryptionError
deriving DecidableEq, Repr

/-- A row of the `configurations` table (`ConfigurationModel`).
`environment` is a mandatory column; `category` is nullable. -/
structure ConfigurationModel where
  id : Nat
  key : String
  encrypted_value : FernetToken
  category : Option String
  environment : String
  created_at : Nat
  updated_at : Nat
deriving DecidableEq, Repr

/-- The mutable state of a `ConfigurationManager`: the table rows in
insertion order plus the autoincrement counter. -/
structure StoreState where
  entries : List ConfigurationModel
  nextId : Nat
deriving DecidableEq, Repr

/-- The dict returned by `create`/`read`/`update`.  `created_at` and
`updated_at` are `Option` because `read` includes them only when
`include_timestamps` is set. -/
structure ConfigResult where
  id : Nat
  key : String
  category : Option String
  environment : String
  value : String
  created_at : Option Nat
  updated_at : Option Nat
deriving DecidableEq, Repr

/-- The `filter_by(key=key, environment=environment).first()` query. -/
def findEntry (entries : List ConfigurationModel) (key environment : String) :
    Option ConfigurationModel :=
  entries.find? (fun e => e.key == key && e.environment == environment)

/-- `ConfigurationManager.create` (lines 210–261).  `environment = ""`
stands for a missing/empty environment (both are falsy for
`if not environment`).  On any raise the session is closed without commit,
so the state component is returned unchanged. -/
def createConfig (mgr : EncryptionManager) (st : StoreState) (key value : String)
    (category : Option String) (environment : String) (now : Nat) :
    Except OSCError ConfigResult × StoreState :=
  if environment = "" then (.error .validationError, st)
  else
    match findEntry st.entries key environment with
    | some _ => (.error .duplicateKeyError, st)
    | none =>
      let encrypted_value := mgr.encrypt value
      let config : ConfigurationModel :=
        { id := st.nextId
          key := key
          encrypted_value := encrypted_value
          category := category
          environment := environment
          created_at := now
          updated_at := now }
      (.ok { id := config.id
             key := config.key
             category := config.category
             environment := config.environment
             value := value
             created_at := some now
             updated_at := some now },
       { entries := st.entries ++ [config], nextId := st.nextId + 1 })

/-- `ConfigurationManager.read` (lines 263–304).  Read-only, so no state is
returned. -/
def readConfig (mgr : EncryptionManager) (st : StoreState) (key environment : String)
    (include_timestamps : Bool) : Except OSCError ConfigResult :=
  if environment = "" then .error .validationError
  else
    match findEntry st.entries key environment with
    | none => .error .notFoundError
    | some config =>
      match mgr.decrypt config.encrypted_value with
      | none => .error .decryptionError
      | some v =>
        .ok { id := config.id
              key := config.key
              category := config.category
              environment := config.environment
              value := v
              created_at := if include_timestamps then some config.created_at else none
              updated_at := if include_timestamps then some config.updated_at else none }

/-- Replace the first element satisfying `p` (the row returned by
`.first()` is mutated in place and committed). -/
def replaceFirst {α : Type _} (l : List α) (p : α → Bool) (repl : α) : List α :=
  match l with
  | [] => []
  | e :: rest => if p e then repl :: rest else e :: replaceFirst rest p repl

/-- `ConfigurationManager.update` (lines 306–351): re-encrypts the new
value, overwrites `category` only when the argument `is not None`,
refreshes `updated_at`, and commits. -/
def updateConfig (mgr : EncryptionManager) (st : StoreState) (key environment value : String)
    (category : Option String) (now : Nat) :
    Except OSCError ConfigResult × StoreState :=
  if environment = "" then (.error .validationError, st)
  else
    match findEntry st.entries key environment with
    | none => (.error .notFoundError, st)
    | some config =>
      let newCategory : Option String :=
        match category with
        | some c => some c
        | none => config.category
      let config2 : ConfigurationModel :=
        { config with
            encrypted_value := mgr.encrypt value
            category := newCategory
            updated_at := now }
      (.ok { id := config2.id
             key := config2.key
             category := config2.category
             environment := config2.environment
             value := value
             created_at := some config2.created_at
             updated_at := some config2.updated_at },
       { st with
           entries :=
             replaceFirst st.entries
               (fun e => e.key == key && e.environment == environment) config2 })

/-! ## The SSE event bus (`server/core/sse_manager.py`, `server/core/models.py`)

Python dicts are embedded as association lists with a normalizing `dset`
(each key occurs at most once after an update), `set`s of subscription ids
as duplicate-free `List String`; both are used membership-wise only, so
the Python iteration orders need not be reproduced.  `defaultdict(int)`
counters are read through `dgetD … 0`.  Counters are `Int` (Python ints),
averages and timestamps are `ℚ` (floats / `datetime` seconds). -/

/-- Dict lookup (`m[k]` / `m.get(k)`). -/
def dget {K V : Type _} [BEq K] (m : List (K × V)) (k : K) : Option V :=
  (m.find? (fun p => p.1 == k)).map Prod.snd

/-- Dict lookup with a default (`defaultdict` read). -/
def dgetD {K V : Type _} [BEq K] (m : List (K × V)) (k : K) (d : V) : V :=
  (dget m k).getD d

/-- Dict update `m[k] = v`. -/
def dset {K V : Type _} [BEq K] (m : List (K × V)) (k : K) (v : V) : List (K × V) :=
  (k, v) :: m.filter (fun p => !(p.1 == k))

/-- Dict deletion `del m[k]`. -/
def ddel {K V : Type _} [BEq K] (m : List (K × V)) (k : K) : List (K × V) :=
  m.filter (fun p => !(p.1 == k))

/-- `defaultdict(int)` increment/decrement `m[k] += delta`. -/
def bump {K : Type _} [BEq K] (m : List (K × Int)) (k : K) (delta : Int) :
    List (K × Int) :=
  dset m k (dgetD m k 0 + delta)

/-- `set.add`. -/
def sadd (s : List String) (id : String) : List String :=
  if id ∈ s then s else s ++ [id]

/-- `set.discard`. -/
def sdiscard (s : List String) (id : String) : List String :=
  s.filter (fun x => !(x == id))

/-- Python truthiness of an `Optional[str]`: `None` and `""` are falsy. -/
def strTruthy : Option String → Bool
  | none => false
  | some s => !(s == "")

/-- `SSEEventType` (`server/core/models.py`). -/
inductive SSEEventType
  | created
  | updated
  | deleted
  | sync
deriving DecidableEq, Repr

/-- `SSESubscription` (`server/core/models.py` lines 707–798): filter
fields default to `None`. -/
structure SSESubscription where
  subscription_id : String
  key : Option String := none
  environment : Option String := none
  category : Option String := none
deriving DecidableEq, Repr

/-- `SSESubscription.matches`: each guard is
`if self.f and self.f != value: return False`, so a `None` or empty-string
filter is skipped (Python truthiness) and a truthy filter must equal the
event attribute.  The category comparison is between optionals. -/
def SSESubscription.matches (sub : SSESubscription) (key environment : String)
    (category : Option String) : Bool :=
  if strTruthy sub.key && sub.key != some key then false
  else if strTruthy sub.environment && sub.environment != some environment then false
  else if strTruthy sub.category && sub.category != category then false
  else true

/-- `SSEEvent` (`server/core/models.py`); the opaque `data` dict payload is
abstracted as an optional string. -/
structure SSEEvent where
  event_type : SSEEventType
  key : String
  environment : String
  category : Option String
  timestamp : ℚ
  node_id : Option String
  data : Option String
deriving DecidableEq, Repr

/-- One value of the `subscriptions` dict: the tuple
`(queue, subscription_info, created_at)`. -/
structure SubEntry where
  queue : List SSEEvent
  subscription : SSESubscription
  created_at : ℚ
deriving DecidableEq, Repr

/-- `SSEStatistics` (`server/core/sse_manager.py` lines 41–104), without
the Prometheus mirrors (external instrumentation). -/
structure SSEStatistics where
  total_subscriptions_created : Int := 0
  active_subscriptions : Int := 0
  total_subscriptions_closed : Int := 0
  events_sent_by_type : List (SSEEventType × Int) := []
  total_events_sent : Int := 0
  events_dropped_queue_full : Int := 0
  keepalive_sent : Int := 0
  disconnections_detected : Int := 0
  average_subscription_duration_seconds : ℚ := 0
  max_queue_size_reached : Int := 0
  subscriptions_by_key : List (String × Int) := []
  subscriptions_by_environment : List (String × Int) := []
  subscriptions_by_category : List (String × Int) := []
  subscriptions_wildcard : Int := 0
  last_event_sent_at : Option ℚ := none
  last_subscription_created_at : Option ℚ := none
deriving DecidableEq, Repr

/-- The state of an `SSEManager`: the subscription registry, the three
filter indices, the queue bound and the statistics. -/
structure SSEManagerState where
  subscriptions : List (String × SubEntry) := []
  by_key : List (String × List String) := []
  by_environment : List (String × List String) := []
  by_category : List (String × List String) := []
  max_queue_size : Nat := 100
  stats : SSEStatistics := {}
deriving DecidableEq, Repr

/-- Index update in `subscribe`: `if f: self.by_f[f].add(id)` — only a
truthy filter is indexed. -/
def indexAdd (idx : List (String × List String)) (filt : Option String)
    (id : String) : List (String × List String) :=
  match filt with
  | none => idx
  | some k => if k == "" then idx else dset idx k (sadd (dgetD idx k []) id)

/-- Index cleanup in `unsubscribe`:
`if f: by_f[f].discard(id); if not by_f[f]: del by_f[f]`.  (With a
`defaultdict`, a missing key is created empty by the `discard` and deleted
right after, a net no-op, which this embedding mirrors.) -/
def indexRemove (idx : List (String × List String)) (filt : Option String)
    (id : String) : List (String × List String) :=
  match filt with
  | none => idx
  | some k =>
    if k == "" then idx
    else
      let s := sdiscard (dgetD idx k []) id
      if s.isEmpty then ddel idx k else dset idx k s

/-- `SSEManager.subscribe` (lines 269–355).  `subscription_id` stands for
the fresh `uuid.uuid4()` and `now` for `datetime.now()`; the new queue is
empty.  Registers the subscription, indexes each truthy filter, and
updates the statistics (including the `if f:` per-filter counters and the
`not key and not environment and not category` wildcard count). -/
def subscribe (st : SSEManagerState) (key environment category : Option String)
    (subscription_id : String) (now : ℚ) : SSEManagerState :=
  let subscription : SSESubscription :=
    { subscription_id := subscription_id, key := key,
      environment := environment, category := category }
  let s := st.stats
  { st with
      subscriptions := dset st.subscriptions subscription_id
        { queue := [], subscription := subscription, created_at := now }
      by_key := indexAdd st.by_key key subscription_id
      by_environment := indexAdd st.by_environment environment subscription_id
      by_category := indexAdd st.by_category category subscription_id
      stats :=
        { s with
            total_subscriptions_created := s.total_subscriptions_created + 1
            active_subscriptions := s.active_subscriptions + 1
            last_subscription_created_at := some now
            subscriptions_by_key :=
              if strTruthy key then bump s.subscriptions_by_key (key.getD "") 1
              else s.subscriptions_by_key
            subscriptions_by_environment :=
              if strTruthy environment then
                bump s.subscriptions_by_environment (environment.getD "") 1
              else s.subscriptions_by_environment
            subscriptions_by_category :=
              if strTruthy category then
                bump s.subscriptions_by_category (category.getD "") 1
              else s.subscriptions_by_category
            subscriptions_wildcard :=
              if !strTruthy key && !strTruthy environment && !strTruthy category then
                s.subscriptions_wildcard + 1
              else s.subscriptions_wildcard } }

/-- `SSEManager.unsubscribe` (lines 357–433).  An unknown id returns
immediately.  Otherwise the subscription is removed from the indices and
the registry and the statistics are updated.  Note the average-duration
update of the source: it multiplies the current average by the *already
incremented* closed count and divides by the same count — the computed
`duration` is never added to `total_duration`. -/
def unsubscribe (st : SSEManagerState) (subscription_id : String) (now : ℚ) :
    SSEManagerState :=
  match dget st.subscriptions subscription_id with
  | none => st
  | some entry =>
    let subscription := entry.subscription
    let duration : ℚ := now - entry.created_at
    let s := st.stats
    let closed : Int := s.total_subscriptions_closed + 1
    let total_duration : ℚ :=
      s.average_subscription_duration_seconds * (closed : ℚ)
    { st with
        subscriptions := ddel st.subscriptions subscription_id
        by_key := indexRemove st.by_key subscription.key subscription_id
        by_environment :=
          indexRemove st.by_environment subscription.environment subscription_id
        by_category := indexRemove st.by_category subscription.category subscription_id
        stats :=
          { s with
              active_subscriptions := s.active_subscriptions - 1
              total_subscriptions_closed := closed
              subscriptions_by_key :=
                if strTruthy subscription.key then
                  bump s.subscriptions_by_key (subscription.key.getD "") (-1)
                else s.subscriptions_by_key
              subscriptions_by_environment :=
                if strTruthy subscription.environment then
                  bump s.subscriptions_by_environment
                    (subscription.environment.getD "") (-1)
                else s.subscriptions_by_environment
              subscriptions_by_category :=
                if strTruthy subscription.category then
                  bump s.subscriptions_by_category
                    (subscription.category.getD "") (-1)
                else s.subscriptions_by_category
              subscriptions_wildcard :=
                if !strTruthy subscription.key && !strTruthy subscription.environment
                    && !strTruthy subscription.category then
                  s.subscriptions_wildcard - 1
                else s.subscriptions_wildcard
              average_subscription_duration_seconds :=
                if closed > 0 then total_duration / (closed : ℚ) else 0 } }

/-- `asyncio.Queue` fullness: `put_nowait` raises `QueueFull` exactly when
`0 < maxsize ∧ maxsize ≤ qsize`. -/
def queueFull (maxsize : Nat) (q : List SSEEvent) : Bool :=
  decide (0 < maxsize) && decide (maxsize ≤ q.length)

/-- `SSEManager._find_matching_subscriptions` (lines 537–565): scans every
registered subscription and collects the ids whose `matches` accepts the
event.  (A set in the source; here the duplicate-free id list.) -/
def findMatchingSubscriptions (st : SSEManagerState) (key environment : String)
    (category : Option String) : List String :=
  (st.subscriptions.filter
    (fun p => p.2.subscription.matches key environment category)).map Prod.fst

/-- The body of the broadcast loop for one registry entry: a matching
subscription with a non-full queue gets the event appended
(`put_nowait`); a matching one with a full queue is left untouched. -/
def deliverOne (maxsize : Nat) (event : SSEEvent) (matching : List String)
    (p : String × SubEntry) : String × SubEntry :=
  if matching.contains p.1 && !queueFull maxsize p.2.queue then
    (p.1, { p.2 with queue := p.2.queue ++ [event] })
  else p

/-- `SSEManager.broadcast_event` (lines 435–535).  The source iterates the
matching id set and looks each id up in the registry; since every id keys
at most one registry entry and each queue belongs to one subscription,
that loop is the per-entry `deliverOne` map below, with `sent_count` and
`dropped_count` the corresponding tallies.  Statistics are touched only
when `sent_count > 0 or dropped_count > 0`, exactly as in the source. -/
def broadcastEvent (st : SSEManagerState) (event_type : SSEEventType)
    (key environment : String) (category : Option String) (data : Option String)
    (node_id : Option String) (now : ℚ) : SSEManagerState :=
  let event : SSEEvent :=
    { event_type := event_type, key := key, environment := environment,
      category := category, timestamp := now, node_id := node_id, data := data }
  let matching := findMatchingSubscriptions st key environment category
  let sent_count : Nat :=
    (st.subscriptions.filter
      (fun p => matching.contains p.1 && !queueFull st.max_queue_size p.2.queue)).length
  let dropped_count : Nat :=
    (st.subscriptions.filter
      (fun p => matching.contains p.1 && queueFull st.max_queue_size p.2.queue)).length
  let st1 :=
    { st with subscriptions :=
        st.subscriptions.map (deliverOne st.max_queue_size event matching) }
  if 0 < sent_count ∨ 0 < dropped_count then
    let s := st1.stats
    { st1 with
        stats :=
          { s with
              total_events_sent := s.total_events_sent + (sent_count : Int)
              events_sent_by_type :=
                bump s.events_sent_by_type event_type (sent_count : Int)
              events_dropped_queue_full :=
                s.events_dropped_queue_full + (dropped_count : Int)
              last_event_sent_at := some now
              max_queue_size_reached :=
                if 0 < dropped_count then
                  max s.max_queue_size_reached (st.max_queue_size : Int)
                else s.max_queue_size_reached } }
  else st1

/-- `SSEManager.get_stats` snapshots the statistics (`to_dict` merely
reformats the same fields). -/
def getStats (st : SSEManagerState) : SSEStatistics :=
  st.stats

/-- The event-bus histories quantified over by the invariant claims: any
interleaving of `subscribe` and `unsubscribe` calls starting from a fresh
manager.  The `fresh` side condition on `subscribe` stands for the
collision-freeness of `uuid.uuid4()`; `unsubscribe` may be invoked with
any id, registered or not. -/
inductive Reachable : SSEManagerState → Prop
  | init : Reachable {}
  | sub {st : SSEManagerState} (key environment category : Option String)
      (id : String) (now : ℚ) (fresh : dget st.subscriptions id = none)
      (h : Reachable st) : Reachable (subscribe st key environment category id now)
  | unsub {st : SSEManagerState} (id : String) (now : ℚ) (h : Reachable st) :
      Reachable (unsubscribe st id now)

/-- Well-formedness of one filter index against the registry, for the
filter dimension selected by `proj`: no index key maps to an empty set,
every indexed id is registered with exactly that (non-empty) filter value,
and conversely every registered subscription with a non-empty filter value
in this dimension is indexed under it. -/
def IndexOK (subs : List (String × SubEntry)) (idx : List (String × List String))
    (proj : SSESubscription → Option String) : Prop :=
  (∀ k ids, dget idx k = some ids → ids ≠ [] ∧
      ∀ id ∈ ids, ∃ e, dget subs id = some e ∧
        proj e.subscription = some k ∧ k ≠ "") ∧
  (∀ id e k, dget subs id = some e → proj e.subscription = some k → k ≠ "" →
      ∃ ids, dget idx k = some ids ∧ id ∈ ids)

/-- All three filter indices are well-formed against the registry. -/
def IndicesOK (st : SSEManagerState) : Prop :=
  IndexOK st.subscriptions st.by_key (fun s => s.key) ∧
  IndexOK st.subscriptions st.by_environment (fun s => s.environment) ∧
  IndexOK st.subscriptions st.by_category (fun s => s.category)

/-! ## The cluster coordinator (`server/cluster_manager.py`) -/

/-- One entry of the metadata payload served by `GET /cluster/configs`
(`server/routes/cluster_routes.py`): key, category, environment and
timestamps — never decrypted values. -/
structure ConfigMeta where
  key : String
  category : Option String
  environment : String
  created_at : Nat
  updated_at : Nat
deriving DecidableEq, Repr

/-- First metadata entry for a `(key, environment)` pair. -/
def metaLookup (l : List ConfigMeta) (key environment : String) :
    Option ConfigMeta :=
  l.find? (fun e => e.key == key && e.environment == environment)

/-- Modelled from the spec: `ClusterManager._merge_configurations` is a
stub in `cluster_manager.py` (lines 346–366, "implementation in api.py"),
and no implementation exists anywhere in the repository; §9 of the spec
fixes the policy as upsert by `(key, environment)` with last-writer-wins
on `updated_at`.  This upserts one remote entry: insert when the pair is
new, replace when the remote copy is strictly more recent, keep the local
copy otherwise. -/
def upsertLWW (localConfigs : List ConfigMeta) (r : ConfigMeta) :
    List ConfigMeta :=
  match metaLookup localConfigs r.key r.environment with
  | none => localConfigs ++ [r]
  | some l =>
    if l.updated_at < r.updated_at then
      replaceFirst localConfigs
        (fun e => e.key == r.key && e.environment == r.environment) r
    else localConfigs

/-- Modelled from the spec: the merge of one peer's metadata list into the
local state — every remote entry upserted in order. -/
def mergeConfigurations (localConfigs remote : List ConfigMeta) :
    List ConfigMeta :=
  remote.foldl upsertLWW localConfigs

/-- A registry entry (`NodeInfo`) reduced to what reconciliation reads:
the id and the health flag. -/
structure ClusterNode where
  node_id : String
  is_healthy : Bool
deriving DecidableEq, Repr

/-- One cycle of `ClusterManager._sync_configurations` (lines 288–344, run
by `_sync_loop` in REPLICA mode): iterate the healthy nodes, pull
`/cluster/configs` from each (`fetch`, `none` = request failed), and merge
each successful payload into the local state; failures are skipped. -/
def syncConfigurations (localConfigs : List ConfigMeta) (nodes : List ClusterNode)
    (fetch : String → Option (List ConfigMeta)) : List ConfigMeta :=
  let healthy_nodes := nodes.filter (fun n => n.is_healthy)
  if healthy_nodes.isEmpty then localConfigs
  else
    healthy_nodes.foldl
      (fun acc node =>
        match fetch node.node_id with
        | some remote_configs => mergeConfigurations acc remote_configs
        | none => acc)
      localConfigs

/-! ## Salt bootstrap (`ClusterManager.sync_encryption_salt`, lines
591–748)

The network is abstracted by two oracles: `initialFetch` gives the
response of the pre-election `GET /cluster/salt` probe of each peer, and
`retryFetch attempt peer` the response seen by a non-elected node during
retry round `attempt`.  File-system and push side effects are summarized
in the result. -/

/-- Outcome of one `sync_encryption_salt` run. -/
inductive SaltSyncResult
  | distributedLocal
  | fetchedInitial (source : String) (salt : List Nat)
  | generatedSalt (salt : List Nat)
  | fetchedRetry (attempt : Nat) (source : String) (salt : List Nat)
  | failedSync
deriving DecidableEq, Repr

/-- The first pre-election fetch loop: first peer that answers 200 wins. -/
def firstInitialFetch (peers : List String)
    (fetch : String → Option (List Nat)) : Option (String × List Nat) :=
  match peers with
  | [] => none
  | p :: rest =>
    match fetch p with
    | some s => some (p, s)
    | none => firstInitialFetch rest fetch

/-- One retry round: walk `all_node_ids` in sorted order, skip self and
ids missing from the node registry, return the first 200 response. -/
def retryAttempt (selfId : String) (peers : List String)
    (fetch : String → Option (List Nat)) :
    List String → Option (String × List Nat)
  | [] => none
  | n :: rest =>
    if n = selfId then retryAttempt selfId peers fetch rest
    else if n ∈ peers then
      match fetch n with
      | some s => some (n, s)
      | none => retryAttempt selfId peers fetch rest
    else retryAttempt selfId peers fetch rest

/-- The `for attempt in range(5)` polling loop of a non-elected node:
`remaining` counts the attempts still available, `attempt` the current
index.  Exhausting the attempts returns failure. -/
def retryLoop (selfId : String) (allIds peers : List String)
    (fetch : Nat → String → Option (List Nat)) :
    Nat → Nat → SaltSyncResult
  | _, 0 => .failedSync
  | attempt, remaining + 1 =>
    match retryAttempt selfId peers (fetch attempt) allIds with
    | some (n, s) => .fetchedRetry attempt n s
    | none => retryLoop selfId allIds peers fetch (attempt + 1) remaining

/-- `ClusterManager.sync_encryption_salt`.  With a local salt the node
distributes it and returns `True`; otherwise it tries each peer once,
then sorts `[self] + peers` and either generates (when it is first in the
sorted order) or polls with 5 retries. -/
def sync_encryption_salt (hasLocalSalt : Bool) (selfId : String)
    (peers : List String) (initialFetch : String → Option (List Nat))
    (retryFetch : Nat → String → Option (List Nat)) (newSalt : List Nat) :
    SaltSyncResult :=
  if hasLocalSalt then .distributedLocal
  else
    match firstInitialFetch peers initialFetch with
    | some (n, s) => .fetchedInitial n s
    | none =>
      let all_node_ids := List.insertionSort (· ≤ ·) (selfId :: peers)
      let bootstrap_node := all_node_ids.headI
      if selfId = bootstrap_node then .generatedSalt newSalt
      else retryLoop selfId all_node_ids peers retryFetch 0 5

/-! Auxiliary list lemma used below. -/

theorem find?_append {α : Type _} (l₁ l₂ : List α) (p : α → Bool) :
    (l₁ ++ l₂).find? p = ((l₁.find? p).orElse fun _ => l₂.find? p) := by
  induction l₁ with
  | nil => simp
  | cons a l ih =>
    by_cases h : p a
    · simp [List.find?, h]
    · simp only [List.cons_append, List.find?]
      rw [Bool.not_eq_true] at h
      simp [h, ih]

/-! ## C1 and C7: create/read and update contracts -/

/-- **C1.** After a successful `create(key, value, category, environment)`
(non-empty environment), `read(key, environment)` returns an entry whose
value is the created value, and a second `create` for the same
`(key, environment)` pair — whatever value/category/time it carries —
fails with the duplicate-key error and leaves the store state unchanged. -/
theorem create_then_read_and_duplicate_create
    (mgr : EncryptionManager) (st st2 : StoreState) (key value : String)
    (category : Option String) (environment : String) (now : Nat) (r : ConfigResult)
    (hcreate : createConfig mgr st key value category environment now = (.ok r, st2)) :
    (∃ res : ConfigResult,
        readConfig mgr st2 key environment false = .ok res ∧ res.value = value) ∧
    (∀ (value2 : String) (category2 : Option String) (now2 : Nat),
        (createConfig mgr st2 key value2 category2 environment now2).1
            = .error .duplicateKeyError ∧
        (createConfig mgr st2 key value2 category2 environment now2).2 = st2) := by
  unfold createConfig at hcreate
  by_cases henv : environment = ""
  · simp [henv] at hcreate
  · simp only [henv, if_false] at hcreate
    cases hfind : findEntry st.entries key environment with
    | some c => rw [hfind] at hcreate; simp at hcreate
    | none =>
      rw [hfind] at hcreate
      simp only [Prod.mk.injEq] at hcreate
      obtain ⟨-, hst2⟩ := hcreate
      have hfind2 : findEntry st2.entries key environment =
          some { id := st.nextId
                 key := key
                 encrypted_value := mgr.encrypt value
                 category := category
                 environment := environment
                 created_at := now
                 updated_at := now } := by
        rw [← hst2]
        unfold findEntry at hfind ⊢
        rw [find?_append, hfind]
        simp
      constructor
      · refine ⟨{ id := st.nextId, key := key, category := category,
                  environment := environment, value := value,
                  created_at := none, updated_at := none }, ?_, rfl⟩
        unfold readConfig
        rw [if_neg henv, hfind2]
        have hdec : mgr.decrypt (mgr.encrypt value) = some value := by
          simp [EncryptionManager.decrypt, EncryptionManager.encrypt,
            fernetEncrypt, fernetDecrypt]
        simp only [hdec]
        rfl
      · intro value2 category2 now2
        unfold createConfig
        rw [if_neg henv, hfind2]
        exact ⟨rfl, rfl⟩

/-- Witness for C1 at a concrete input. -/
theorem create_then_read_and_duplicate_create_witness :
    (∃ res : ConfigResult,
        readConfig ⟨[7], "pw"⟩
          (createConfig ⟨[7], "pw"⟩ ⟨[], 1⟩ "db" "v0" (some "c") "prod" 5).2
          "db" "prod" false = .ok res ∧ res.value = "v0") ∧
    (∀ (value2 : String) (category2 : Option String) (now2 : Nat),
        (createConfig ⟨[7], "pw"⟩
            (createConfig ⟨[7], "pw"⟩ ⟨[], 1⟩ "db" "v0" (some "c") "prod" 5).2
            "db" value2 category2 "prod" now2).1 = .error .duplicateKeyError ∧
        (createConfig ⟨[7], "pw"⟩
            (createConfig ⟨[7], "pw"⟩ ⟨[], 1⟩ "db" "v0" (some "c") "prod" 5).2
            "db" value2 category2 "prod" now2).2
          = (createConfig ⟨[7], "pw"⟩ ⟨[], 1⟩ "db" "v0" (some "c") "prod" 5).2) :=
  create_then_read_and_duplicate_create ⟨[7], "pw"⟩ ⟨[], 1⟩
    ⟨[{ id := 1, key := "db", encrypted_value := ⟨⟨[7], "pw"⟩, "v0"⟩,
        category := some "c", environment := "prod",
        created_at := 5, updated_at := 5 }], 2⟩
    "db" "v0" (some "c") "prod" 5
    { id := 1, key := "db", category := some "c", environment := "prod",
      value := "v0", created_at := some 5, updated_at := some 5 }
    rfl

/-- **C2.** Round-trip: decrypting the encryption of `v` under the same
derived context returns `v`; a context derived from the same salt but a
different user key fails with a decryption error (`InvalidToken`, modelled
as `none`) rather than returning any plaintext. -/
theorem encrypt_decrypt_roundtrip_and_wrong_passphrase
    (m m2 : EncryptionManager) (v : String) (hsalt : m2.salt = m.salt)
    (hkey : m2.user_key ≠ m.user_key) :
    m.decrypt (m.encrypt v) = some v ∧ m2.decrypt (m.encrypt v) = none := by
  constructor
  · simp [EncryptionManager.decrypt, EncryptionManager.encrypt,
      fernetEncrypt, fernetDecrypt]
  · simp only [EncryptionManager.decrypt, EncryptionManager.encrypt,
      fernetEncrypt, fernetDecrypt, EncryptionManager.cipher]
    rw [if_neg]
    intro h
    exact hkey (congrArg FernetKey.userKey h).symm

/-- Witness for C2 at a concrete input. -/
theorem encrypt_decrypt_roundtrip_and_wrong_passphrase_witness :
    (⟨[1, 2], "right"⟩ : EncryptionManager).decrypt
        ((⟨[1, 2], "right"⟩ : EncryptionManager).encrypt "secret") = some "secret" ∧
    (⟨[1, 2], "wrong"⟩ : EncryptionManager).decrypt
        ((⟨[1, 2], "right"⟩ : EncryptionManager).encrypt "secret") = none :=
  encrypt_decrypt_roundtrip_and_wrong_passphrase ⟨[1, 2], "right"⟩
    ⟨[1, 2], "wrong"⟩ "secret" rfl (by decide)

/-- **C7.** For an existing `(key, environment)` entry, `update` replaces
the stored ciphertext wholesale with the encryption of the new value,
changes `category` only when one is explicitly provided, refreshes
`updated_at`, and keeps `id`, `key`, `environment` and `created_at`; on a
non-existent pair it fails with the not-found error and changes nothing. -/
theorem update_contract
    (mgr : EncryptionManager) (st : StoreState) (key environment value : String)
    (category : Option String) (now : Nat) (henv : environment ≠ "") :
    (∀ config, findEntry st.entries key environment = some config →
        updateConfig mgr st key environment value category now =
          (.ok { id := config.id
                 key := config.key
                 category := match category with
                   | some c => some c
                   | none => config.category
                 environment := config.environment
                 value := value
                 created_at := some config.created_at
                 updated_at := some now },
           { st with
               entries :=
                 replaceFirst st.entries
                   (fun e => e.key == key && e.environment == environment)
                   { config with
                       encrypted_value := mgr.encrypt value
                       category := match category with
                         | some c => some c
                         | none => config.category
                       updated_at := now } })) ∧
    (findEntry st.entries key environment = none →
        updateConfig mgr st key environment value category now =
          (.error .notFoundError, st)) := by
  constructor
  · intro config hfind
    unfold updateConfig
    rw [if_neg henv, hfind]
  · intro hfind
    unfold updateConfig
    rw [if_neg henv, hfind]

/-- Witness for C7 at a concrete input: one stored entry is updated
(value replaced, category kept since none is provided, `updated_at`
refreshed, identity fields kept), and an absent key is rejected. -/
theorem update_contract_witness :
    ((∀ config,
        findEntry [{ id := 0, key := "db", encrypted_value := ⟨⟨[7], "pw"⟩, "v0"⟩,
                     category := some "c", environment := "prod",
                     created_at := 5, updated_at := 5 }] "db" "prod" = some config →
        updateConfig ⟨[7], "pw"⟩
            ⟨[{ id := 0, key := "db", encrypted_value := ⟨⟨[7], "pw"⟩, "v0"⟩,
                category := some "c", environment := "prod",
                created_at := 5, updated_at := 5 }], 1⟩ "db" "prod" "v1" none 9 =
          (.ok { id := config.id
                 key := config.key
                 category := match (none : Option String) with
                   | some c => some c
                   | none => config.category
                 environment := config.environment
                 value := "v1"
                 created_at := some config.created_at
                 updated_at := some 9 },
           { entries :=
               replaceFirst
                 [{ id := 0, key := "db", encrypted_value := ⟨⟨[7], "pw"⟩, "v0"⟩,
                    category := some "c", environment := "prod",
                    created_at := 5, updated_at := 5 }]
                 (fun e => e.key == "db" && e.environment == "prod")
                 { config with
                     encrypted_value := EncryptionManager.encrypt ⟨[7], "pw"⟩ "v1"
                     category := match (none : Option String) with
                       | some c => some c
                       | none => config.category
                     updated_at := 9 }
             nextId := 1 })) ∧
      (findEntry [{ id := 0, key := "db", encrypted_value := ⟨⟨[7], "pw"⟩, "v0"⟩,
                    category := some "c", environment := "prod",
                    created_at := 5, updated_at := 5 }] "db" "prod" = none →
        updateConfig ⟨[7], "pw"⟩
            ⟨[{ id := 0, key := "db", encrypted_value := ⟨⟨[7], "pw"⟩, "v0"⟩,
                category := some "c", environment := "prod",
                created_at := 5, updated_at := 5 }], 1⟩ "db" "prod" "v1" none 9 =
          (.error .notFoundError,
            ⟨[{ id := 0, key := "db", encrypted_value := ⟨⟨[7], "pw"⟩, "v0"⟩,
                category := some "c", environment := "prod",
                created_at := 5, updated_at := 5 }], 1⟩))) :=
  update_contract ⟨[7], "pw"⟩
    ⟨[{ id := 0, key := "db", encrypted_value := ⟨⟨[7], "pw"⟩, "v0"⟩,
        category := some "c", environment := "prod",
        created_at := 5, updated_at := 5 }], 1⟩
    "db" "prod" "v1" none 9 (by decide)

/-! ## Association-list dictionary and set lemmas -/

theorem dget_cons {K V : Type _} [BEq K] (p : K × V) (m : List (K × V)) (k : K) :
    dget (p :: m) k = if p.1 == k then some p.2 else dget m k := by
  unfold dget
  rw [List.find?]
  by_cases h : p.1 == k <;> simp [h]

theorem dget_filter_ne {K V : Type _} [BEq K] [LawfulBEq K] (m : List (K × V))
    (k k' : K) (h : k ≠ k') :
    dget (m.filter (fun p => !(p.1 == k))) k' = dget m k' := by
  induction m with
  | nil => rfl
  | cons q m ih =>
    rw [List.filter_cons]
    by_cases hq : q.1 == k
    · have hq' : q.1 = k := by simpa using hq
      rw [dget_cons]
      have : (q.1 == k') = false := by simp [hq', h]
      simp [hq, this, ih]
    · have : (!(q.1 == k)) = true := by simp_all
      rw [this, if_pos rfl, dget_cons, dget_cons, ih]

theorem dget_dset {K V : Type _} [BEq K] [LawfulBEq K] (m : List (K × V))
    (k k' : K) (v : V) :
    dget (dset m k v) k' = if k == k' then some v else dget m k' := by
  unfold dset
  rw [dget_cons]
  by_cases h : k == k'
  · simp [h]
  · have hne : k ≠ k' := by simpa using h
    have : (k == k') = false := by simpa using h
    simp only [this, Bool.false_eq_true, if_false]
    exact dget_filter_ne m k k' hne

theorem dget_ddel {K V : Type _} [BEq K] [LawfulBEq K] (m : List (K × V))
    (k k' : K) :
    dget (ddel m k) k' = if k == k' then none else dget m k' := by
  unfold ddel
  by_cases h : k == k'
  · have hk : k = k' := by simpa using h
    subst hk
    simp only [h, if_true]
    unfold dget
    rw [List.find?_eq_none.mpr]
    · rfl
    · intro p hp
      have := (List.mem_filter.mp hp).2
      simp only [Bool.not_eq_true'] at this
      simp [this]
  · have hne : k ≠ k' := by simpa using h
    have : (k == k') = false := by simpa using h
    simp only [this, Bool.false_eq_true, if_false]
    exact dget_filter_ne m k k' hne

theorem dgetD_eq {K V : Type _} [BEq K] (m : List (K × V)) (k : K) (d : V) :
    dgetD m k d = (dget m k).getD d := rfl

theorem mem_sadd (s : List String) (id x : String) :
    x ∈ sadd s id ↔ x ∈ s ∨ x = id := by
  unfold sadd
  by_cases h : id ∈ s
  · simp only [if_pos h]
    constructor
    · exact Or.inl
    · rintro (hx | rfl)
      · exact hx
      · exact h
  · simp [h]

theorem sadd_ne_nil (s : List String) (id : String) : sadd s id ≠ [] := by
  unfold sadd
  by_cases h : id ∈ s
  · simp only [if_pos h]
    exact List.ne_nil_of_mem h
  · simp [h]

theorem mem_sdiscard (s : List String) (id x : String) :
    x ∈ sdiscard s id ↔ x ∈ s ∧ x ≠ id := by
  unfold sdiscard
  simp [List.mem_filter]

/-! ## C3: subscription matching and delivery -/

/-- Registry members are retrieved by their own id when ids are
duplicate-free. -/
theorem dget_of_mem_nodup (l : List (String × SubEntry))
    (hnodup : (l.map Prod.fst).Nodup) (p : String × SubEntry) (hp : p ∈ l) :
    dget l p.1 = some p.2 := by
  induction l with
  | nil => cases hp
  | cons q rest ih =>
    rw [List.map_cons, List.nodup_cons] at hnodup
    cases hp with
    | head => rw [dget_cons]; simp
    | tail _ hp =>
      have hne : q.1 ≠ p.1 := by
        intro h
        exact hnodup.1 (h ▸ List.mem_map_of_mem Prod.fst hp)
      rw [dget_cons]
      have : (q.1 == p.1) = false := by simp [hne]
      rw [this]
      simp only [Bool.false_eq_true, if_false]
      exact ih hnodup.2 hp

/-- In a duplicate-free registry, an id is among the matching ids exactly
when its own subscription matches the event. -/
theorem contains_matching_of_dget (l : List (String × SubEntry))
    (hnodup : (l.map Prod.fst).Nodup) (id : String) (entry : SubEntry)
    (hmem : dget l id = some entry) (key environment : String)
    (category : Option String) :
    ((l.filter (fun p => p.2.subscription.matches key environment category)).map
        Prod.fst).contains id
      = entry.subscription.matches key environment category := by
  induction l with
  | nil => simp [dget] at hmem
  | cons p rest ih =>
    rw [List.map_cons, List.nodup_cons] at hnodup
    rw [dget_cons] at hmem
    rw [List.filter_cons]
    by_cases hpid : p.1 == id
    · rw [if_pos hpid] at hmem
      injection hmem with hmem
      subst hmem
      have hpid' : p.1 = id := by simpa using hpid
      by_cases hm : p.2.subscription.matches key environment category
      · simp [hm, hpid']
      · rw [Bool.not_eq_true] at hm
        simp only [hm, Bool.false_eq_true, if_false]
        have hid : id ∉ (rest.filter
            (fun q => q.2.subscription.matches key environment category)).map
              Prod.fst := by
          intro hx
          rcases List.mem_map.mp hx with ⟨q, hq, hq1⟩
          exact hnodup.1
            (hpid' ▸ hq1 ▸ List.mem_map_of_mem Prod.fst (List.mem_of_mem_filter hq))
        simpa using hid
    · rw [if_neg hpid] at hmem
      have hpid0 : (id == p.1) = false := by
        rw [Bool.eq_false_iff]
        intro h
        rw [beq_iff_eq] at h
        exact hpid (by simp [h])
      by_cases hm : p.2.subscription.matches key environment category
      · simp only [hm, if_true, List.map_cons, List.contains_cons, hpid0,
          Bool.false_or]
        exact ih hnodup.2 hmem
      · rw [Bool.not_eq_true] at hm
        simp only [hm, Bool.false_eq_true, if_false]
        exact ih hnodup.2 hmem

/-- **C3, counterexample.** A registered subscription whose key filter is
the present (non-absent) value `""` is delivered an event with key `"db"`,
although its present filter differs from the event key: `matches` tests
Python truthiness, so an empty-string filter acts as a wildcard, not as a
value that must match. -/
theorem present_empty_filter_still_delivered :
    Reachable (subscribe {} (some "") none none "s1" 0) ∧
    "s1" ∈ findMatchingSubscriptions (subscribe {} (some "") none none "s1" 0)
        "db" "prod" none ∧
    (some "" : Option String) ≠ some "db" := by
  refine ⟨Reachable.sub (some "") none none "s1" 0 rfl Reachable.init, ?_, ?_⟩
  · simp [subscribe, findMatchingSubscriptions, SSESubscription.matches,
      strTruthy, dset]
  · decide

/-- **C3 (amended).** For a registered subscription (duplicate-free id
registry): the event `(key, environment, category)` is delivered — the id
is among `_find_matching_subscriptions`'s result — exactly when `matches`
accepts it, and `matches` accepts exactly when every present *non-empty*
filter equals the corresponding event field (absent and empty-string
filters are wildcards); in particular a subscription with no filters
matches every event. -/
theorem delivery_iff_truthy_filters_match
    (st : SSEManagerState) (id : String) (entry : SubEntry)
    (key environment : String) (category : Option String)
    (hnodup : (st.subscriptions.map Prod.fst).Nodup)
    (hmem : dget st.subscriptions id = some entry) :
    ((findMatchingSubscriptions st key environment category).contains id =
        entry.subscription.matches key environment category) ∧
    (entry.subscription.matches key environment category =
      ((!strTruthy entry.subscription.key || entry.subscription.key == some key) &&
       ((!strTruthy entry.subscription.environment
          || entry.subscription.environment == some environment) &&
        (!strTruthy entry.subscription.category
          || entry.subscription.category == category)))) := by
  constructor
  · unfold findMatchingSubscriptions
    exact contains_matching_of_dget st.subscriptions hnodup id entry hmem
      key environment category
  · cases hk : strTruthy entry.subscription.key <;>
      cases hk2 : entry.subscription.key == some key <;>
      cases he : strTruthy entry.subscription.environment <;>
      cases he2 : entry.subscription.environment == some environment <;>
      cases hc : strTruthy entry.subscription.category <;>
      cases hc2 : entry.subscription.category == category <;>
      simp [SSESubscription.matches, hk, hk2, he, he2, hc, hc2, bne]

/-- Witness for C3 at a concrete registry: one subscription filtered on
`key="db"`, probed with a matching event. -/
theorem delivery_iff_truthy_filters_match_witness :
    ((findMatchingSubscriptions
        { subscriptions :=
            [("w1", { queue := [],
                      subscription :=
                        { subscription_id := "w1", key := some "db",
                          environment := none, category := none },
                      created_at := 0 })] } "db" "prod" none).contains "w1" =
      SSESubscription.matches
        { subscription_id := "w1", key := some "db",
          environment := none, category := none } "db" "prod" none) ∧
    (SSESubscription.matches
        { subscription_id := "w1", key := some "db",
          environment := none, category := none } "db" "prod" none =
      ((!strTruthy (some "db") || (some "db" : Option String) == some "db") &&
       ((!strTruthy (none : Option String) || (none : Option String) == some "prod") &&
        (!strTruthy (none : Option String) || (none : Option String) == none)))) :=
  delivery_iff_truthy_filters_match
    { subscriptions :=
        [("w1", { queue := [],
                  subscription :=
                    { subscription_id := "w1", key := some "db",
                      environment := none, category := none },
                  created_at := 0 })] }
    "w1"
    { queue := [],
      subscription :=
        { subscription_id := "w1", key := some "db",
          environment := none, category := none },
      created_at := 0 }
    "db" "prod" none (by simp) rfl

/-- **C10.** `unsubscribe` with an id that is not registered returns before
touching anything: the registry, every index and every statistics field
are left exactly as they were. -/
theorem unsubscribe_unknown_id_noop (st : SSEManagerState) (id : String)
    (now : ℚ) (h : dget st.subscriptions id = none) :
    unsubscribe st id now = st := by
  unfold unsubscribe
  rw [h]

/-- Witness for C10: unsubscribing an unknown id from a fresh manager. -/
theorem unsubscribe_unknown_id_noop_witness :
    dget ({} : SSEManagerState).subscriptions "ghost" = none ∧
    unsubscribe {} "ghost" 3 = ({} : SSEManagerState) :=
  ⟨rfl, unsubscribe_unknown_id_noop {} "ghost" 3 rfl⟩

/-- **C8 (code bug).** One subscription created at t = 0 and unsubscribed
at t = 5 — its duration is 5 s — leaves
`average_subscription_duration_seconds` at 0 with one closed
subscription: the source multiplies the old average by the already
incremented closed count and divides by the same count, never adding the
computed `duration`, so the reported average never reflects any closed
subscription's duration. -/
theorem average_duration_stuck_at_zero :
    (getStats (unsubscribe (subscribe {} none none none "s" 0) "s" 5)).total_subscriptions_closed
        = 1 ∧
    5 - (0 : ℚ) = 5 ∧
    (getStats (unsubscribe (subscribe {} none none none "s" 0) "s" 5)).average_subscription_duration_seconds
        = 0 := by
  refine ⟨?_, by norm_num, ?_⟩
  · rfl
  · show (if (1 : Int) > 0 then (0 : ℚ) * ((1 : Int) : ℚ) / ((1 : Int) : ℚ) else 0) = 0
    norm_num

/-! ## C5: non-blocking broadcast with per-subscriber drops -/

theorem deliverOne_fst (maxsize : Nat) (event : SSEEvent) (matching : List String)
    (p : String × SubEntry) : (deliverOne maxsize event matching p).1 = p.1 := by
  unfold deliverOne
  split <;> rfl

theorem dget_map_deliverOne (l : List (String × SubEntry)) (maxsize : Nat)
    (event : SSEEvent) (matching : List String) (id : String) (entry : SubEntry)
    (hmem : dget l id = some entry) :
    dget (l.map (deliverOne maxsize event matching)) id =
      some ((deliverOne maxsize event matching (id, entry)).2) := by
  induction l with
  | nil => simp [dget] at hmem
  | cons p rest ih =>
    rw [dget_cons] at hmem
    rw [List.map_cons, dget_cons, deliverOne_fst]
    by_cases hpid : p.1 == id
    · rw [if_pos hpid] at hmem ⊢
      injection hmem with hmem
      have hpid' : p.1 = id := by simpa using hpid
      have : p = (id, entry) := by
        cases p
        simp only at hpid' hmem
        rw [hpid', hmem]
      rw [this]
    · rw [if_neg hpid] at hmem ⊢
      exact ih hmem

/-- In a duplicate-free registry, the id-membership filter used by the
broadcast loop coincides pointwise with the subscription's own `matches`. -/
theorem filter_contains_eq_filter_matches (st : SSEManagerState)
    (hnodup : (st.subscriptions.map Prod.fst).Nodup) (key environment : String)
    (category : Option String) (c : String × SubEntry → Bool) :
    st.subscriptions.filter
        (fun p => (findMatchingSubscriptions st key environment category).contains p.1
          && c p) =
      st.subscriptions.filter
        (fun p => p.2.subscription.matches key environment category && c p) := by
  apply List.filter_congr
  intro p hp
  have hdget : dget st.subscriptions p.1 = some p.2 :=
    dget_of_mem_nodup st.subscriptions hnodup p hp
  rw [show (findMatchingSubscriptions st key environment category).contains p.1
      = p.2.subscription.matches key environment category from
    contains_matching_of_dget st.subscriptions hnodup p.1 p.2 hdget
      key environment category]

/-- **C5.** `broadcast_event` never blocks (it is a total state function):
a matching subscription with a full queue keeps its queue untouched — the
event is dropped for it alone — while every matching subscription with a
non-full queue receives the event at the back of its queue and
non-matching subscriptions are untouched; the
`events_dropped_queue_full` counter grows by exactly one per matching
full-queue subscription. -/
theorem broadcast_drops_only_on_full_queues
    (st : SSEManagerState) (event_type : SSEEventType) (key environment : String)
    (category : Option String) (data : Option String) (node_id : Option String)
    (now : ℚ) (id : String) (entry : SubEntry)
    (hnodup : (st.subscriptions.map Prod.fst).Nodup)
    (hmem : dget st.subscriptions id = some entry) :
    dget (broadcastEvent st event_type key environment category data node_id
        now).subscriptions id =
      some (if entry.subscription.matches key environment category
              && !queueFull st.max_queue_size entry.queue then
              { entry with queue := entry.queue ++
                  [{ event_type := event_type, key := key,
                     environment := environment, category := category,
                     timestamp := now, node_id := node_id, data := data }] }
            else entry) ∧
    (broadcastEvent st event_type key environment category data node_id
        now).stats.events_dropped_queue_full =
      st.stats.events_dropped_queue_full +
        ((st.subscriptions.filter
            (fun p => p.2.subscription.matches key environment category
              && queueFull st.max_queue_size p.2.queue)).length : Int) := by
  have hcontains :
      (findMatchingSubscriptions st key environment category).contains id =
        entry.subscription.matches key environment category :=
    contains_matching_of_dget st.subscriptions hnodup id entry hmem
      key environment category
  constructor
  · have hsubs :
        (broadcastEvent st event_type key environment category data node_id
          now).subscriptions =
        st.subscriptions.map
          (deliverOne st.max_queue_size
            { event_type := event_type, key := key, environment := environment,
              category := category, timestamp := now, node_id := node_id,
              data := data }
            (findMatchingSubscriptions st key environment category)) := by
      unfold broadcastEvent
      dsimp only
      split <;> rfl
    rw [hsubs, dget_map_deliverOne st.subscriptions _ _ _ id entry hmem]
    unfold deliverOne
    dsimp only
    rw [hcontains]
    split <;> rfl
  · have hlen := filter_contains_eq_filter_matches st hnodup key environment
      category (fun p => queueFull st.max_queue_size p.2.queue)
    unfold broadcastEvent
    dsimp only
    split
    · dsimp only
      rw [hlen]
    · rename_i hgate
      push_neg at hgate
      have h0 : (st.subscriptions.filter
          (fun p => (findMatchingSubscriptions st key environment category).contains p.1
            && queueFull st.max_queue_size p.2.queue)).length = 0 :=
        Nat.le_zero.mp (hgate.2)
      rw [hlen] at h0
      simp only [h0]
      simp

/-- Witness for C5: a three-subscriber registry (bound 1) — a wildcard
subscriber with a full queue keeps its queue and accounts for the one
drop, while the others are handled independently. -/
theorem broadcast_drops_only_on_full_queues_witness :
    dget (broadcastEvent
        { subscriptions :=
            [("a", { queue := [], subscription := { subscription_id := "a" },
                     created_at := 0 }),
             ("b", { queue :=
                       [{ event_type := .created, key := "x", environment := "e",
                          category := none, timestamp := 0, node_id := none,
                          data := none }],
                     subscription := { subscription_id := "b" }, created_at := 0 }),
             ("c", { queue := [],
                     subscription := { subscription_id := "c", key := some "other" },
                     created_at := 0 })]
          max_queue_size := 1 }
        SSEEventType.updated "db" "prod" none none none 7).subscriptions "b" =
      some { queue :=
               [{ event_type := .created, key := "x", environment := "e",
                  category := none, timestamp := 0, node_id := none,
                  data := none }],
             subscription := { subscription_id := "b" }, created_at := 0 } ∧
    (broadcastEvent
        { subscriptions :=
            [("a", { queue := [], subscription := { subscription_id := "a" },
                     created_at := 0 }),
             ("b", { queue :=
                       [{ event_type := .created, key := "x", environment := "e",
                          category := none, timestamp := 0, node_id := none,
                          data := none }],
                     subscription := { subscription_id := "b" }, created_at := 0 }),
             ("c", { queue := [],
                     subscription := { subscription_id := "c", key := some "other" },
                     created_at := 0 })]
          max_queue_size := 1 }
        SSEEventType.updated "db" "prod" none none none 7).stats.events_dropped_queue_full
      = 1 := by
  have h := broadcast_drops_only_on_full_queues
    { subscriptions :=
        [("a", { queue := [], subscription := { subscription_id := "a" },
                 created_at := 0 }),
         ("b", { queue :=
                   [{ event_type := .created, key := "x", environment := "e",
                      category := none, timestamp := 0, node_id := none,
                      data := none }],
                 subscription := { subscription_id := "b" }, created_at := 0 }),
         ("c", { queue := [],
                 subscription := { subscription_id := "c", key := some "other" },
                 created_at := 0 })]
      max_queue_size := 1 }
    SSEEventType.updated "db" "prod" none none none 7 "b"
    { queue :=
        [{ event_type := .created, key := "x", environment := "e",
           category := none, timestamp := 0, node_id := none, data := none }],
      subscription := { subscription_id := "b" }, created_at := 0 }
    (by decide) (by decide)
  exact ⟨h.1.trans (by decide), h.2.trans (by decide)⟩

/-! ## C9: registry/index invariant of the event bus -/

theorem dget_dset_of_fresh {K V : Type _} [BEq K] [LawfulBEq K]
    (m : List (K × V)) (newKey : K) (v : V) (k : K) (w : V)
    (hfresh : dget m newKey = none) (h : dget m k = some w) :
    dget (dset m newKey v) k = some w := by
  rw [dget_dset]
  by_cases hk : newKey == k
  · have : newKey = k := by simpa using hk
    rw [this] at hfresh
    rw [hfresh] at h
    cases h
  · have : (newKey == k) = false := by simpa using hk
    simp [this, h]

theorem IndexOK_indexAdd
    (subs : List (String × SubEntry)) (idx : List (String × List String))
    (proj : SSESubscription → Option String) (filt : Option String)
    (newId : String) (entry : SubEntry)
    (hOK : IndexOK subs idx proj)
    (hfresh : dget subs newId = none)
    (hproj : proj entry.subscription = filt) :
    IndexOK (dset subs newId entry) (indexAdd idx filt newId) proj := by
  obtain ⟨hfwd, hbwd⟩ := hOK
  have lift : ∀ k ids, dget idx k = some ids → ids ≠ [] ∧
      ∀ id ∈ ids, ∃ e, dget (dset subs newId entry) id = some e ∧
        proj e.subscription = some k ∧ k ≠ "" := by
    intro k ids hk
    obtain ⟨hne, hmem⟩ := hfwd k ids hk
    refine ⟨hne, fun id hid => ?_⟩
    obtain ⟨e, he, hpe, hke⟩ := hmem id hid
    exact ⟨e, dget_dset_of_fresh subs newId entry id e hfresh he, hpe, hke⟩
  cases filt with
  | none =>
    constructor
    · exact lift
    · intro id e k hid hpk hk
      rw [dget_dset] at hid
      by_cases hnew : newId == id
      · rw [if_pos hnew] at hid
        injection hid with hid
        rw [← hid, hproj] at hpk
        cases hpk
      · rw [if_neg hnew] at hid
        exact hbwd id e k hid hpk hk
  | some f =>
    by_cases hf : f == ""
    · have hf' : f = "" := by simpa using hf
      subst hf'
      have hidx : indexAdd idx (some "") newId = idx := by
        unfold indexAdd
        simp
      rw [hidx]
      constructor
      · exact lift
      · intro id e k hid hpk hk
        rw [dget_dset] at hid
        by_cases hnew : newId == id
        · rw [if_pos hnew] at hid
          injection hid with hid
          rw [← hid, hproj] at hpk
          injection hpk with hpk
          exact absurd hpk.symm hk
        · rw [if_neg hnew] at hid
          exact hbwd id e k hid hpk hk
    · have hf0 : (f == "") = false := by simpa using hf
      have hfne : f ≠ "" := by simpa using hf
      have hidx : indexAdd idx (some f) newId
          = dset idx f (sadd (dgetD idx f []) newId) := by
        unfold indexAdd
        simp [hf0]
      rw [hidx]
      constructor
      · intro k ids hk
        rw [dget_dset] at hk
        by_cases hfk : f == k
        · have hfk' : f = k := by simpa using hfk
          rw [if_pos hfk] at hk
          injection hk with hk
          subst hk
          refine ⟨sadd_ne_nil _ _, fun id hid => ?_⟩
          rcases (mem_sadd _ _ _).mp hid with hold | rfl
          · rcases hgf : dget idx f with _ | ids0
            · rw [dgetD_eq, hgf] at hold
              cases hold
            · rw [dgetD_eq, hgf] at hold
              obtain ⟨-, hmem⟩ := hfwd f ids0 hgf
              obtain ⟨e, he, hpe, -⟩ := hmem id hold
              exact ⟨e, dget_dset_of_fresh subs newId entry id e hfresh he,
                hfk' ▸ hpe, hfk' ▸ hfne⟩
          · refine ⟨entry, ?_, ?_, hfk' ▸ hfne⟩
            · rw [dget_dset]
              simp
            · rw [hproj, hfk']
        · rw [if_neg hfk] at hk
          exact lift k ids hk
      · intro id e k hid hpk hk
        rw [dget_dset] at hid
        by_cases hnew : newId == id
        · rw [if_pos hnew] at hid
          injection hid with hid
          have hnew' : newId = id := by simpa using hnew
          rw [← hid, hproj] at hpk
          injection hpk with hpk
          subst hpk
          refine ⟨sadd (dgetD idx f []) newId, ?_, ?_⟩
          · rw [dget_dset]
            simp
          · rw [← hnew']
            exact (mem_sadd _ _ _).mpr (Or.inr rfl)
        · rw [if_neg hnew] at hid
          obtain ⟨ids0, hids0, hmem0⟩ := hbwd id e k hid hpk hk
          rw [dget_dset]
          by_cases hfk : f == k
          · have hfk' : f = k := by simpa using hfk
            refine ⟨sadd (dgetD idx f []) newId, by simp [hfk], ?_⟩
            rw [dgetD_eq, hfk', hids0]
            exact (mem_sadd _ _ _).mpr (Or.inl hmem0)
          · exact ⟨ids0, by simp [hfk, hids0], hmem0⟩

theorem IndexOK_indexRemove
    (subs : List (String × SubEntry)) (idx : List (String × List String))
    (proj : SSESubscription → Option String)
    (remId : String) (entry : SubEntry)
    (hOK : IndexOK subs idx proj)
    (hmem : dget subs remId = some entry) :
    IndexOK (ddel subs remId) (indexRemove idx (proj entry.subscription) remId)
      proj := by
  obtain ⟨hfwd, hbwd⟩ := hOK
  have hkeep : ∀ id e, dget subs id = some e → id ≠ remId →
      dget (ddel subs remId) id = some e := by
    intro id e he hne
    rw [dget_ddel]
    have hb : (remId == id) = false := by simpa using Ne.symm hne
    simp [hb, he]
  have hddel : ∀ id e, dget (ddel subs remId) id = some e →
      id ≠ remId ∧ dget subs id = some e := by
    intro id e he
    rw [dget_ddel] at he
    by_cases h : remId == id
    · rw [if_pos h] at he
      cases he
    · have hne : remId ≠ id := by simpa using h
      rw [if_neg h] at he
      exact ⟨Ne.symm hne, he⟩
  cases hpe : proj entry.subscription with
  | none =>
    have hidx : indexRemove idx none remId = idx := rfl
    rw [hidx]
    constructor
    · intro k ids hk
      obtain ⟨hne, hm⟩ := hfwd k ids hk
      refine ⟨hne, fun id hid => ?_⟩
      obtain ⟨e, he, hp, hk0⟩ := hm id hid
      have hne2 : id ≠ remId := by
        intro h
        subst h
        rw [hmem] at he
        injection he with he
        subst he
        rw [hpe] at hp
        cases hp
      exact ⟨e, hkeep id e he hne2, hp, hk0⟩
    · intro id e k hid hp hk
      obtain ⟨-, he⟩ := hddel id e hid
      exact hbwd id e k he hp hk
  | some f =>
    by_cases hf : f == ""
    · have hf' : f = "" := by simpa using hf
      subst hf'
      have hidx : indexRemove idx (some "") remId = idx := by
        unfold indexRemove
        simp
      rw [hidx]
      constructor
      · intro k ids hk
        obtain ⟨hne, hm⟩ := hfwd k ids hk
        refine ⟨hne, fun id hid => ?_⟩
        obtain ⟨e, he, hp, hk0⟩ := hm id hid
        have hne2 : id ≠ remId := by
          intro h
          subst h
          rw [hmem] at he
          injection he with he
          subst he
          rw [hpe] at hp
          injection hp with hp
          exact hk0 hp.symm
        exact ⟨e, hkeep id e he hne2, hp, hk0⟩
      · intro id e k hid hp hk
        obtain ⟨-, he⟩ := hddel id e hid
        exact hbwd id e k he hp hk
    · have hf0 : (f == "") = false := by simpa using hf
      have hfne : f ≠ "" := by simpa using hf
      by_cases hS : (sdiscard (dgetD idx f []) remId).isEmpty
      · have hidx : indexRemove idx (some f) remId = ddel idx f := by
          unfold indexRemove
          simp [hf0, hS]
        rw [hidx]
        rw [List.isEmpty_iff] at hS
        constructor
        · intro k ids hk
          rw [dget_ddel] at hk
          by_cases hfk : f == k
          · rw [if_pos hfk] at hk
            cases hk
          · rw [if_neg hfk] at hk
            have hfk' : f ≠ k := by simpa using hfk
            obtain ⟨hne, hm⟩ := hfwd k ids hk
            refine ⟨hne, fun id hid => ?_⟩
            obtain ⟨e, he, hp, hk0⟩ := hm id hid
            have hne2 : id ≠ remId := by
              intro h
              subst h
              rw [hmem] at he
              injection he with he
              subst he
              rw [hpe] at hp
              injection hp with hp
              exact hfk' hp
            exact ⟨e, hkeep id e he hne2, hp, hk0⟩
        · intro id e k hid hp hk
          obtain ⟨hne, he⟩ := hddel id e hid
          obtain ⟨ids0, hids0, hm0⟩ := hbwd id e k he hp hk
          rw [dget_ddel]
          by_cases hfk : f == k
          · exfalso
            have hfk' : f = k := by simpa using hfk
            have : id ∈ sdiscard (dgetD idx f []) remId := by
              rw [dgetD_eq, hfk', hids0]
              exact (mem_sdiscard _ _ _).mpr ⟨hm0, hne⟩
            rw [hS] at this
            cases this
          · rw [if_neg hfk]
            exact ⟨ids0, hids0, hm0⟩
      · have hidx : indexRemove idx (some f) remId
            = dset idx f (sdiscard (dgetD idx f []) remId) := by
          unfold indexRemove
          simp [hf0, hS]
        rw [hidx]
        constructor
        · intro k ids hk
          rw [dget_dset] at hk
          by_cases hfk : f == k
          · have hfk' : f = k := by simpa using hfk
            rw [if_pos hfk] at hk
            injection hk with hk
            subst hk
            refine ⟨fun h0 => hS (by rw [h0]; rfl), fun id hid => ?_⟩
            obtain ⟨hidold, hidne⟩ := (mem_sdiscard _ _ _).mp hid
            rcases hgf : dget idx f with _ | ids0
            · rw [dgetD_eq, hgf] at hidold
              cases hidold
            · rw [dgetD_eq, hgf] at hidold
              obtain ⟨-, hm⟩ := hfwd f ids0 hgf
              obtain ⟨e, he, hp, -⟩ := hm id hidold
              exact ⟨e, hkeep id e he hidne, hfk' ▸ hp, hfk' ▸ hfne⟩
          · rw [if_neg hfk] at hk
            have hfk' : f ≠ k := by simpa using hfk
            obtain ⟨hne, hm⟩ := hfwd k ids hk
            refine ⟨hne, fun id hid => ?_⟩
            obtain ⟨e, he, hp, hk0⟩ := hm id hid
            have hne2 : id ≠ remId := by
              intro h
              subst h
              rw [hmem] at he
              injection he with he
              subst he
              rw [hpe] at hp
              injection hp with hp
              exact hfk' hp
            exact ⟨e, hkeep id e he hne2, hp, hk0⟩
        · intro id e k hid hp hk
          obtain ⟨hne, he⟩ := hddel id e hid
          obtain ⟨ids0, hids0, hm0⟩ := hbwd id e k he hp hk
          rw [dget_dset]
          by_cases hfk : f == k
          · have hfk' : f = k := by simpa using hfk
            refine ⟨sdiscard (dgetD idx f []) remId, by simp [hfk], ?_⟩
            rw [dgetD_eq, hfk', hids0]
            exact (mem_sdiscard _ _ _).mpr ⟨hm0, hne⟩
          · rw [if_neg hfk]
            exact ⟨ids0, hids0, hm0⟩

theorem IndicesOK_subscribe (st : SSEManagerState)
    (key environment category : Option String) (id : String) (now : ℚ)
    (hOK : IndicesOK st) (hfresh : dget st.subscriptions id = none) :
    IndicesOK (subscribe st key environment category id now) := by
  obtain ⟨h1, h2, h3⟩ := hOK
  refine ⟨?_, ?_, ?_⟩
  · exact IndexOK_indexAdd st.subscriptions st.by_key (fun s => s.key) key id
      { queue := [], subscription :=
          { subscription_id := id, key := key, environment := environment,
            category := category }, created_at := now } h1 hfresh rfl
  · exact IndexOK_indexAdd st.subscriptions st.by_environment
      (fun s => s.environment) environment id
      { queue := [], subscription :=
          { subscription_id := id, key := key, environment := environment,
            category := category }, created_at := now } h2 hfresh rfl
  · exact IndexOK_indexAdd st.subscriptions st.by_category
      (fun s => s.category) category id
      { queue := [], subscription :=
          { subscription_id := id, key := key, environment := environment,
            category := category }, created_at := now } h3 hfresh rfl

theorem IndicesOK_unsubscribe (st : SSEManagerState) (id : String) (now : ℚ)
    (hOK : IndicesOK st) : IndicesOK (unsubscribe st id now) := by
  rcases hmem : dget st.subscriptions id with _ | entry
  · unfold unsubscribe
    rw [hmem]
    exact hOK
  · obtain ⟨h1, h2, h3⟩ := hOK
    unfold unsubscribe
    rw [hmem]
    refine ⟨?_, ?_, ?_⟩
    · exact IndexOK_indexRemove st.subscriptions st.by_key (fun s => s.key)
        id entry h1 hmem
    · exact IndexOK_indexRemove st.subscriptions st.by_environment
        (fun s => s.environment) id entry h2 hmem
    · exact IndexOK_indexRemove st.subscriptions st.by_category
        (fun s => s.category) id entry h3 hmem

theorem IndicesOK_reachable (st : SSEManagerState) (h : Reachable st) :
    IndicesOK st := by
  induction h with
  | init =>
    refine ⟨⟨?_, ?_⟩, ⟨?_, ?_⟩, ⟨?_, ?_⟩⟩
    · intro k ids hk
      simp [dget] at hk
    · intro id e k hid hp hk
      simp [dget] at hid
    · intro k ids hk
      simp [dget] at hk
    · intro id e k hid hp hk
      simp [dget] at hid
    · intro k ids hk
      simp [dget] at hk
    · intro id e k hid hp hk
      simp [dget] at hid
  | sub key environment category id now fresh hr ih =>
    exact IndicesOK_subscribe _ key environment category id now ih fresh
  | unsub id now hr ih =>
    exact IndicesOK_unsubscribe _ id now ih

/-- **C9, counterexample.** After `subscribe(key="")` — a present
(non-absent) filter value — the subscription is registered but *not*
indexed under `""`: `subscribe` indexes a filter only when it is truthy
(`if key:`), so the claim's "indexed under each of its present filter
values" fails for empty-string filters. -/
theorem registered_empty_filter_not_indexed :
    Reachable (subscribe {} (some "") none none "id0" 0) ∧
    dget (subscribe {} (some "") none none "id0" 0).subscriptions "id0" =
      some { queue := [],
             subscription :=
               { subscription_id := "id0", key := some "",
                 environment := none, category := none },
             created_at := 0 } ∧
    dget (subscribe {} (some "") none none "id0" 0).by_key "" = none :=
  ⟨Reachable.sub (some "") none none "id0" 0 rfl Reachable.init,
   by decide, by decide⟩

/-- **C9 (amended).** After every sequence of `subscribe`/`unsubscribe`
operations (fresh uuid per subscribe): every subscription id appearing in
any index set is a key of the registry, every registered subscription is
indexed under each of its present *non-empty* filter values (empty-string
filters, like absent ones, are skipped by `if key:`), and no index entry
maps to an empty set. -/
theorem event_bus_index_registry_invariant (st : SSEManagerState)
    (h : Reachable st) :
    (∀ k ids, dget st.by_key k = some ids →
        ids ≠ [] ∧ ∀ id ∈ ids, ∃ e, dget st.subscriptions id = some e) ∧
    (∀ k ids, dget st.by_environment k = some ids →
        ids ≠ [] ∧ ∀ id ∈ ids, ∃ e, dget st.subscriptions id = some e) ∧
    (∀ k ids, dget st.by_category k = some ids →
        ids ≠ [] ∧ ∀ id ∈ ids, ∃ e, dget st.subscriptions id = some e) ∧
    (∀ id e, dget st.subscriptions id = some e →
        (∀ k, e.subscription.key = some k → k ≠ "" →
            ∃ ids, dget st.by_key k = some ids ∧ id ∈ ids) ∧
        (∀ v, e.subscription.environment = some v → v ≠ "" →
            ∃ ids, dget st.by_environment v = some ids ∧ id ∈ ids) ∧
        (∀ c, e.subscription.category = some c → c ≠ "" →
            ∃ ids, dget st.by_category c = some ids ∧ id ∈ ids)) := by
  obtain ⟨⟨hk1, hk2⟩, ⟨he1, he2⟩, ⟨hc1, hc2⟩⟩ := IndicesOK_reachable st h
  refine ⟨?_, ?_, ?_, ?_⟩
  · intro k ids hk
    obtain ⟨hne, hm⟩ := hk1 k ids hk
    exact ⟨hne, fun id hid => (hm id hid).imp fun e he => he.1⟩
  · intro k ids hk
    obtain ⟨hne, hm⟩ := he1 k ids hk
    exact ⟨hne, fun id hid => (hm id hid).imp fun e he => he.1⟩
  · intro k ids hk
    obtain ⟨hne, hm⟩ := hc1 k ids hk
    exact ⟨hne, fun id hid => (hm id hid).imp fun e he => he.1⟩
  · intro id e hid
    exact ⟨fun k hpk hk => hk2 id e k hid hpk hk,
      fun v hpv hv => he2 id e v hid hpv hv,
      fun c hpc hc => hc2 id e c hid hpc hc⟩

/-- Witness for C9 at a concrete two-operation history. -/
theorem event_bus_index_registry_invariant_witness :
    (∀ k ids,
        dget (subscribe {} (some "db") (some "prod") none "id0" 0).by_key k
          = some ids →
        ids ≠ [] ∧ ∀ id ∈ ids,
          ∃ e, dget (subscribe {} (some "db") (some "prod") none "id0"
            0).subscriptions id = some e) ∧
    (∀ k ids,
        dget (subscribe {} (some "db") (some "prod") none "id0"
            0).by_environment k = some ids →
        ids ≠ [] ∧ ∀ id ∈ ids,
          ∃ e, dget (subscribe {} (some "db") (some "prod") none "id0"
            0).subscriptions id = some e) ∧
    (∀ k ids,
        dget (subscribe {} (some "db") (some "prod") none "id0"
            0).by_category k = some ids →
        ids ≠ [] ∧ ∀ id ∈ ids,
          ∃ e, dget (subscribe {} (some "db") (some "prod") none "id0"
            0).subscriptions id = some e) ∧
    (∀ id e,
        dget (subscribe {} (some "db") (some "prod") none "id0"
            0).subscriptions id = some e →
        (∀ k, e.subscription.key = some k → k ≠ "" →
            ∃ ids, dget (subscribe {} (some "db") (some "prod") none "id0"
              0).by_key k = some ids ∧ id ∈ ids) ∧
        (∀ v, e.subscription.environment = some v → v ≠ "" →
            ∃ ids, dget (subscribe {} (some "db") (some "prod") none "id0"
              0).by_environment v = some ids ∧ id ∈ ids) ∧
        (∀ c, e.subscription.category = some c → c ≠ "" →
            ∃ ids, dget (subscribe {} (some "db") (some "prod") none "id0"
              0).by_category c = some ids ∧ id ∈ ids)) :=
  event_bus_index_registry_invariant
    (subscribe {} (some "db") (some "prod") none "id0" 0)
    (Reachable.sub (some "db") (some "prod") none "id0" 0 rfl Reachable.init)

/-! ## C6: salt bootstrap election -/

theorem firstInitialFetch_none (peers : List String)
    (fetch : String → Option (List Nat)) (h : ∀ p ∈ peers, fetch p = none) :
    firstInitialFetch peers fetch = none := by
  induction peers with
  | nil => rfl
  | cons p rest ih =>
    unfold firstInitialFetch
    rw [h p (List.mem_cons_self p rest)]
    exact ih fun q hq => h q (List.mem_cons_of_mem p hq)

theorem retryAttempt_none (selfId : String) (peers : List String)
    (fetch : String → Option (List Nat)) (ids : List String)
    (h : ∀ p, fetch p = none) :
    retryAttempt selfId peers fetch ids = none := by
  induction ids with
  | nil => rfl
  | cons n rest ih =>
    unfold retryAttempt
    by_cases h1 : n = selfId
    · simp [h1, ih]
    · by_cases h2 : n ∈ peers
      · simp [h1, h2, h n, ih]
      · simp [h1, h2, ih]

theorem retryLoop_failed (selfId : String) (allIds peers : List String)
    (fetch : Nat → String → Option (List Nat)) (attempt remaining : Nat)
    (h : ∀ a, attempt ≤ a → a < attempt + remaining → ∀ p, fetch a p = none) :
    retryLoop selfId allIds peers fetch attempt remaining = .failedSync := by
  induction remaining generalizing attempt with
  | zero => rfl
  | succ m ih =>
    unfold retryLoop
    rw [retryAttempt_none selfId peers (fetch attempt) allIds
      (h attempt le_rfl (by omega))]
    exact ih (attempt + 1) fun a ha hb => h a (by omega) (by omega)

theorem retryLoop_ne_generated (selfId : String) (allIds peers : List String)
    (fetch : Nat → String → Option (List Nat)) (attempt remaining : Nat)
    (s : List Nat) :
    retryLoop selfId allIds peers fetch attempt remaining ≠ .generatedSalt s := by
  induction remaining generalizing attempt with
  | zero => simp [retryLoop]
  | succ m ih =>
    unfold retryLoop
    rcases h : retryAttempt selfId peers (fetch attempt) allIds with _ | ⟨n, t⟩
    · exact ih (attempt + 1)
    · simp

/-- `all_node_ids.sort(); all_node_ids[0]` picks the node exactly when it is
the lexicographically smallest of `{self} ∪ peers`. -/
theorem headI_sort_min (selfId : String) (peers : List String) :
    selfId = (List.insertionSort (· ≤ ·) (selfId :: peers)).headI
      ↔ ∀ p ∈ peers, selfId ≤ p := by
  have hperm := List.perm_insertionSort (α := String) (· ≤ ·) (selfId :: peers)
  have hsorted := List.sorted_insertionSort (α := String) (· ≤ ·) (selfId :: peers)
  rcases hL : List.insertionSort (· ≤ ·) (selfId :: peers) with _ | ⟨h0, t⟩
  · rw [hL] at hperm
    exact absurd hperm.length_eq (by simp)
  · rw [hL] at hperm hsorted
    simp only [List.headI]
    have hmin0 : ∀ x ∈ h0 :: t, h0 ≤ x := by
      intro x hx
      rcases List.mem_cons.mp hx with rfl | hx
      · exact le_rfl
      · exact List.rel_of_sorted_cons hsorted x hx
    constructor
    · intro hself p hp
      have hpL : p ∈ h0 :: t := hperm.mem_iff.mpr (List.mem_cons_of_mem selfId hp)
      exact hself ▸ hmin0 p hpL
    · intro hmin
      have hh0 : h0 ∈ selfId :: peers := hperm.mem_iff.mp (List.mem_cons_self h0 t)
      have hs : selfId ∈ h0 :: t := hperm.mem_iff.mpr (List.mem_cons_self selfId peers)
      have h1 : h0 ≤ selfId := hmin0 selfId hs
      have h2 : selfId ≤ h0 := by
        rcases List.mem_cons.mp hh0 with h | h
        · exact h.symm.le
        · exact hmin h0 h
      exact le_antisymm h2 h1

/-- **C6.** With no local salt and no peer answering the pre-election
probe: the node generates new salt material if and only if its id is the
lexicographically smallest of `{self} ∪ peers`; a non-elected node instead
polls its peers for exactly 5 retries and, when no peer supplies the salt
in any of them, returns failure. -/
theorem salt_bootstrap_election
    (selfId : String) (peers : List String)
    (initialFetch : String → Option (List Nat))
    (retryFetch : Nat → String → Option (List Nat)) (newSalt : List Nat)
    (hnone : ∀ p ∈ peers, initialFetch p = none) :
    ((∃ s, sync_encryption_salt false selfId peers initialFetch retryFetch
        newSalt = .generatedSalt s) ↔ ∀ p ∈ peers, selfId ≤ p) ∧
    ((∃ p ∈ peers, p < selfId) →
      (∀ a, a < 5 → ∀ p, retryFetch a p = none) →
      sync_encryption_salt false selfId peers initialFetch retryFetch newSalt
        = .failedSync) := by
  have hres : sync_encryption_salt false selfId peers initialFetch retryFetch
      newSalt =
      if selfId = (List.insertionSort (· ≤ ·) (selfId :: peers)).headI
      then .generatedSalt newSalt
      else retryLoop selfId (List.insertionSort (· ≤ ·) (selfId :: peers))
        peers retryFetch 0 5 := by
    unfold sync_encryption_salt
    rw [firstInitialFetch_none peers initialFetch hnone]
    rfl
  constructor
  · rw [hres]
    by_cases hh : selfId = (List.insertionSort (· ≤ ·) (selfId :: peers)).headI
    · rw [if_pos hh]
      exact ⟨fun _ => (headI_sort_min selfId peers).mp hh,
        fun _ => ⟨newSalt, rfl⟩⟩
    · rw [if_neg hh]
      constructor
      · rintro ⟨s, hs⟩
        exact absurd hs (retryLoop_ne_generated selfId _ peers retryFetch 0 5 s)
      · intro hmin
        exact absurd ((headI_sort_min selfId peers).mpr hmin) hh
  · rintro ⟨p, hp, hlt⟩ hfetch
    have hh : selfId ≠ (List.insertionSort (· ≤ ·) (selfId :: peers)).headI := by
      intro hself
      exact absurd ((headI_sort_min selfId peers).mp hself p hp) (not_le.mpr hlt)
    rw [hres, if_neg hh]
    exact retryLoop_failed selfId _ peers retryFetch 0 5
      fun a ha hb q => hfetch a (by omega) q

/-- Witness for C6: node "b" in a cluster with peers "a" and "c", nobody
serving the salt. -/
theorem salt_bootstrap_election_witness :
    ((∃ s, sync_encryption_salt false "b" ["a", "c"] (fun _ => none)
        (fun _ _ => none) [9] = .generatedSalt s) ↔
      ∀ p ∈ ["a", "c"], ("b" : String) ≤ p) ∧
    ((∃ p ∈ ["a", "c"], p < ("b" : String)) →
      (∀ a, a < 5 → ∀ p, (fun _ _ => none : Nat → String → Option (List Nat))
          a p = none) →
      sync_encryption_salt false "b" ["a", "c"] (fun _ => none)
        (fun _ _ => none) [9] = .failedSync) :=
  salt_bootstrap_election "b" ["a", "c"] (fun _ => none) (fun _ _ => none) [9]
    fun p _ => rfl

/-! ## C4: reconciliation merge (REPLICA mode) -/

theorem find?_replaceFirst_other {α : Type _} (l : List α) (p q : α → Bool)
    (y : α) (hy : q y = false) (hpq : ∀ z, p z = true → q z = false) :
    (replaceFirst l p y).find? q = l.find? q := by
  induction l with
  | nil => rfl
  | cons a rest ih =>
    unfold replaceFirst
    by_cases hpe : p a
    · rw [if_pos hpe]
      simp [List.find?_cons, hy, hpq a hpe]
    · rw [if_neg hpe]
      simp only [List.find?_cons]
      by_cases hqe : q a <;> simp [hqe, ih]

theorem find?_replaceFirst_self {α : Type _} (l : List α) (p : α → Bool)
    (y x : α) (hx : l.find? p = some x) (hy : p y = true) :
    (replaceFirst l p y).find? p = some y := by
  induction l with
  | nil => simp at hx
  | cons a rest ih =>
    unfold replaceFirst
    by_cases hpe : p a
    · rw [if_pos hpe]
      simp [List.find?_cons, hy]
    · rw [if_neg hpe]
      simp only [List.find?_cons, hpe, Bool.false_eq_true, if_false] at hx ⊢
      exact ih hx

theorem metaLookup_upsertLWW (localConfigs : List ConfigMeta) (r : ConfigMeta)
    (k e : String) :
    metaLookup (upsertLWW localConfigs r) k e =
      if r.key = k ∧ r.environment = e then
        match metaLookup localConfigs k e with
        | none => some r
        | some l => some (if l.updated_at < r.updated_at then r else l)
      else metaLookup localConfigs k e := by
  unfold upsertLWW
  by_cases hre : r.key = k ∧ r.environment = e
  · obtain ⟨hk, he⟩ := hre
    subst hk
    subst he
    rw [if_pos ⟨rfl, rfl⟩]
    rcases hl : metaLookup localConfigs r.key r.environment with _ | l
    · dsimp only
      unfold metaLookup at hl ⊢
      rw [find?_append, hl]
      simp
    · dsimp only
      by_cases hu : l.updated_at < r.updated_at
      · simp only [if_pos hu]
        unfold metaLookup at hl ⊢
        exact find?_replaceFirst_self localConfigs _ r l hl (by simp)
      · simp only [if_neg hu]
        exact hl
  · rw [if_neg hre]
    have hrb : (r.key == k && r.environment == e) = false := by
      cases hk : r.key == k
      · simp
      · cases he2 : r.environment == e
        · simp
        · exact absurd ⟨by simpa using hk, by simpa using he2⟩ hre
    rcases hl : metaLookup localConfigs r.key r.environment with _ | l
    · dsimp only
      unfold metaLookup
      rw [find?_append]
      cases hfl : List.find? (fun x => x.key == k && x.environment == e)
          localConfigs <;> simp [hfl, hrb]
    · dsimp only
      by_cases hu : l.updated_at < r.updated_at
      · simp only [if_pos hu]
        unfold metaLookup
        apply find?_replaceFirst_other
        · exact hrb
        · intro z hz
          rw [Bool.and_eq_true] at hz
          have hzk : z.key = r.key := by simpa using hz.1
          have hze : z.environment = r.environment := by simpa using hz.2
          cases hqz : (z.key == k && z.environment == e)
          · rfl
          · rw [Bool.and_eq_true] at hqz
            exact absurd ⟨hzk ▸ (by simpa using hqz.1),
              hze ▸ (by simpa using hqz.2)⟩ hre
      · rw [if_neg hu]

theorem metaLookup_mergeConfigurations (localConfigs remote : List ConfigMeta)
    (hnodup : remote.Pairwise
      (fun a b => a.key ≠ b.key ∨ a.environment ≠ b.environment))
    (k e : String) :
    metaLookup (mergeConfigurations localConfigs remote) k e =
      match metaLookup localConfigs k e, metaLookup remote k e with
      | some l, some r => some (if l.updated_at < r.updated_at then r else l)
      | some l, none => some l
      | none, some r => some r
      | none, none => none := by
  induction remote generalizing localConfigs with
  | nil =>
    rw [show mergeConfigurations localConfigs [] = localConfigs from rfl,
      show metaLookup ([] : List ConfigMeta) k e = none from rfl]
    cases hl : metaLookup localConfigs k e <;> rfl
  | cons r rest ih =>
    rw [List.pairwise_cons] at hnodup
    obtain ⟨hr, hrest⟩ := hnodup
    show metaLookup (mergeConfigurations (upsertLWW localConfigs r) rest) k e = _
    rw [ih (upsertLWW localConfigs r) hrest, metaLookup_upsertLWW]
    by_cases hre : r.key = k ∧ r.environment = e
    · rw [if_pos hre]
      have hrest0 : metaLookup rest k e = none := by
        unfold metaLookup
        rw [List.find?_eq_none]
        intro x hx hqx
        rw [Bool.and_eq_true] at hqx
        have hxk : x.key = k := by simpa using hqx.1
        have hxe : x.environment = e := by simpa using hqx.2
        rcases hr x hx with h | h
        · exact h (hre.1.trans hxk.symm)
        · exact h (hre.2.trans hxe.symm)
      have hhead : metaLookup (r :: rest) k e = some r := by
        unfold metaLookup
        simp [List.find?_cons, hre.1, hre.2]
      rw [hrest0, hhead]
      cases hl : metaLookup localConfigs k e <;> simp
    · rw [if_neg hre]
      have hrb : (r.key == k && r.environment == e) = false := by
        cases hk2 : r.key == k
        · simp
        · cases he2 : r.environment == e
          · simp
          · exact absurd ⟨by simpa using hk2, by simpa using he2⟩ hre
      have hhead : metaLookup (r :: rest) k e = metaLookup rest k e := by
        unfold metaLookup
        simp [List.find?_cons, hrb]
      rw [hhead]

/-- **C4.** One REPLICA reconciliation cycle with a single healthy peer
whose metadata pull succeeds merges that metadata into the local state by
upsert on `(key, environment)` with last-writer-wins on `updated_at`: the
resulting lookup of any pair is the remote entry when it is new or
strictly more recent, and the local entry otherwise.  (The merge policy is
modelled from the spec: `_merge_configurations` is an empty stub in the
repository.) -/
theorem replica_sync_merges_last_writer_wins
    (localConfigs : List ConfigMeta) (nodes : List ClusterNode)
    (fetch : String → Option (List ConfigMeta)) (p : ClusterNode)
    (remote : List ConfigMeta) (k e : String)
    (hhealthy : nodes.filter (fun n => n.is_healthy) = [p])
    (hfetch : fetch p.node_id = some remote)
    (hnodup : remote.Pairwise
      (fun a b => a.key ≠ b.key ∨ a.environment ≠ b.environment)) :
    syncConfigurations localConfigs nodes fetch
        = mergeConfigurations localConfigs remote ∧
    metaLookup (syncConfigurations localConfigs nodes fetch) k e =
      match metaLookup localConfigs k e, metaLookup remote k e with
      | some l, some r => some (if l.updated_at < r.updated_at then r else l)
      | some l, none => some l
      | none, some r => some r
      | none, none => none := by
  have hsync : syncConfigurations localConfigs nodes fetch
      = mergeConfigurations localConfigs remote := by
    unfold syncConfigurations
    rw [hhealthy]
    simp [hfetch]
  exact ⟨hsync,
    hsync ▸ metaLookup_mergeConfigurations localConfigs remote hnodup k e⟩

/-- Witness for C4: local entries `db@prod` (updated 5) and `api@prod`
(updated 9); the healthy peer "n2" reports `db@prod` updated 7 and a new
`cache@dev`; the lookup of `db@prod` after the cycle is the remote copy. -/
theorem replica_sync_merges_last_writer_wins_witness :
    syncConfigurations
        [{ key := "db", category := none, environment := "prod",
           created_at := 1, updated_at := 5 },
         { key := "api", category := some "svc", environment := "prod",
           created_at := 2, updated_at := 9 }]
        [{ node_id := "n2", is_healthy := true }]
        (fun n => if n = "n2" then
          some [{ key := "db", category := none, environment := "prod",
                  created_at := 1, updated_at := 7 },
                { key := "cache", category := none, environment := "dev",
                  created_at := 6, updated_at := 6 }]
          else none)
        = mergeConfigurations
            [{ key := "db", category := none, environment := "prod",
               created_at := 1, updated_at := 5 },
             { key := "api", category := some "svc", environment := "prod",
               created_at := 2, updated_at := 9 }]
            [{ key := "db", category := none, environment := "prod",
               created_at := 1, updated_at := 7 },
             { key := "cache", category := none, environment := "dev",
               created_at := 6, updated_at := 6 }] ∧
    metaLookup (syncConfigurations
        [{ key := "db", category := none, environment := "prod",
           created_at := 1, updated_at := 5 },
         { key := "api", category := some "svc", environment := "prod",
           created_at := 2, updated_at := 9 }]
        [{ node_id := "n2", is_healthy := true }]
        (fun n => if n = "n2" then
          some [{ key := "db", category := none, environment := "prod",
                  created_at := 1, updated_at := 7 },
                { key := "cache", category := none, environment := "dev",
                  created_at := 6, updated_at := 6 }]
          else none)) "db" "prod" =
      match metaLookup
          [{ key := "db", category := none, environment := "prod",
             created_at := 1, updated_at := 5 },
           { key := "api", category := some "svc", environment := "prod",
             created_at := 2, updated_at := 9 }] "db" "prod",
        metaLookup
          [{ key := "db", category := none, environment := "prod",
             created_at := 1, updated_at := 7 },
           { key := "cache", category := none, environment := "dev",
             created_at := 6, updated_at := 6 }] "db" "prod" with
      | some l, some r => some (if l.updated_at < r.updated_at then r else l)
      | some l, none => some l
      | none, some r => some r
      | none, none => none :=
  replica_sync_merges_last_writer_wins
    [{ key := "db", category := none, environment := "prod",
       created_at := 1, updated_at := 5 },
     { key := "api", category := some "svc", environment := "prod",
       created_at := 2, updated_at := 9 }]
    [{ node_id := "n2", is_healthy := true }]
    (fun n => if n = "n2" then
      some [{ key := "db", category := none, environment := "prod",
              created_at := 1, updated_at := 7 },
            { key := "cache", category := none, environment := "dev",
              created_at := 6, updated_at := 6 }]
      else none)
    { node_id := "n2", is_healthy := true }
    [{ key := "db", category := none, environment := "prod",
       created_at := 1, updated_at := 7 },
     { key := "cache", category := none, environment := "dev",
       created_at := 6, updated_at := 6 }]
    "db" "prod" rfl (by simp) (by decide)

end OpenSecureConf
